import Mathlib

/-!
Shallow embedding of the weakcache repository (src/cache.go) and proofs
about its record lifecycle.

Modelling conventions:
  * Go int64 timestamps and durations are modelled as Int.  All timestamps
    produced by time.Now().UnixNano() are positive, which is reflected as a
    positivity hypothesis on the unref step (the only place the code stores
    a current timestamp into a record field that is later compared to 0).
  * Go uint reference counts are modelled as Nat.  The decrement in unref
    follows uint wrap-around semantics at 0 explicitly; the increment in
    fetch is modelled as plain successor (a count of 2 ^ 64 live handles is
    not realisable, as every count is backed by a distinct live pointer).
  * Go maps from uint64 to Record are modelled as association lists with
    Go map semantics for insert (replace), delete and lookup.  Keys are
    Nat (the uint64 hash index).  The maphash Key Hasher is deterministic
    for a fixed seed, so a string key corresponds to a fixed index for the
    lifetime of a cache instance; the model therefore works at index level.
  * The producer callback (type fetch in the source) is a zero-argument
    fallible computation; one call of c.fetch inspects it at most once, so
    it is modelled as a value of type Except e a together with an explicit
    count of how many times the producer was invoked.
  * close(c.quit) on an already closed channel panics in Go; the model
    returns none in that case.
  * The gcInterval and the maphash seed fields play no role in any claim
    and are omitted from the state.
-/

namespace Weakcache

variable {α ε : Type}

/-- Record is a reference-counted cache record (struct Record in cache.go).
Zero values of the Go struct correspond to expires = 0, refs = 0,
lastUnref = 0; a field value 0 is the "unset" sentinel. -/
structure Record (α : Type) where
  value : α
  minTTL : Int
  expires : Int
  refs : Nat
  lastUnref : Int
deriving Repr, DecidableEq

/-- isExpired reports if the record has expired or has been unreferenced
for too long (cache.go lines 21 to 30). -/
def Record.isExpired (r : Record α) (now : Int) : Bool :=
  if r.lastUnref > 0 ∧ r.lastUnref + r.minTTL < now then true
  else if r.expires > 0 ∧ r.expires < now then true
  else false

/-- recordMap: a Go map from uint64 index to Record, as an association
list.  All states built by the cache operations have pairwise distinct
keys. -/
abbrev RecordMap (α : Type) := List (Nat × Record α)

/-- Go map lookup rec, ok := m[i]. -/
def RecordMap.find? : RecordMap α → Nat → Option (Record α)
  | [], _ => none
  | p :: rest, i => if p.1 = i then some p.2 else RecordMap.find? rest i

/-- Go delete(m, i). -/
def RecordMap.erase (m : RecordMap α) (i : Nat) : RecordMap α :=
  m.filter (fun p => p.1 != i)

/-- Go map store m[i] = r (replacing any previous binding). -/
def RecordMap.insert (m : RecordMap α) (i : Nat) (r : Record α) : RecordMap α :=
  (i, r) :: m.erase i

/-- The keys of the map have no duplicates, so that List.length agrees
with the cardinality of the corresponding Go map. -/
def RecordMap.NodupKeys (m : RecordMap α) : Prop :=
  (m.map Prod.fst).Nodup

/-- Cache state: the two record maps plus the state of the quit channel
(struct Cache in cache.go; gcInterval and seed omitted, see header). -/
structure Cache (α : Type) where
  reachable : RecordMap α
  unreachable : RecordMap α
  quitClosed : Bool
deriving Repr, DecidableEq

/-- New creates an empty cache (cache.go lines 48 to 60). -/
def Cache.new : Cache α :=
  { reachable := [], unreachable := [], quitClosed := false }

/-- Len returns the number of cached items (cache.go lines 83 to 87). -/
def Cache.len (c : Cache α) : Nat :=
  c.reachable.length + c.unreachable.length

/-- Close stops the cache GC loop by closing the quit channel (cache.go
lines 90 to 92).  Closing an already closed Go channel panics, modelled
as none. -/
def Cache.close (c : Cache α) : Option (Cache α) :=
  if c.quitClosed then none else some { c with quitClosed := true }

deriving instance DecidableEq for Except

/-- Result of one call of the internal c.fetch: the returned record or
error, the cache state afterwards, and how many times the producer was
invoked during the call. -/
structure FetchOut (α ε : Type) where
  result : Except ε (Record α)
  cache : Cache α
  producerCalls : Nat
deriving Repr, DecidableEq

/-- The shared tail of c.fetch (cache.go lines 163 to 169): increment the
reference count of the record about to be returned and store it into the
reachable map. -/
def Cache.storeFetched (c1 : Cache α) (index : Nat) (rec : Record α)
    (calls : Nat) : FetchOut α ε :=
  let rec1 := { rec with refs := rec.refs + 1 }
  { result := Except.ok rec1,
    cache := { c1 with reachable := c1.reachable.insert index rec1 },
    producerCalls := calls }

/-- The miss branch of c.fetch (cache.go lines 148 to 161): invoke the
producer; on error return it with no further mutation, on success build a
new record with the given minTTL, computed expiry, zero refs and no
lastUnref, then store it. -/
def Cache.fetchMiss (c1 : Cache α) (index : Nat) (minTTL maxTTL : Int)
    (producer : Except ε α) (now : Int) : FetchOut α ε :=
  match producer with
  | Except.error e => { result := Except.error e, cache := c1, producerCalls := 1 }
  | Except.ok v =>
      Cache.storeFetched c1 index
        { value := v, minTTL := minTTL,
          expires := if maxTTL > 0 then now + maxTTL else 0,
          refs := 0, lastUnref := 0 } 1

/-- The internal c.fetch (cache.go lines 122 to 170), with the get closure
inlined: look in the unreachable map first (removing any record found
there), then in the reachable map (removing it only when expired); a found
non-expired record is a hit, everything else falls through to the miss
branch. -/
def Cache.fetchCore (c : Cache α) (index : Nat) (minTTL maxTTL : Int)
    (producer : Except ε α) (now : Int) : FetchOut α ε :=
  match c.unreachable.find? index with
  | some rec =>
      let c1 := { c with unreachable := c.unreachable.erase index }
      if rec.isExpired now then
        Cache.fetchMiss c1 index minTTL maxTTL producer now
      else
        Cache.storeFetched c1 index rec 0
  | none =>
      match c.reachable.find? index with
      | some rec =>
          if rec.isExpired now then
            Cache.fetchMiss { c with reachable := c.reachable.erase index }
              index minTTL maxTTL producer now
          else
            Cache.storeFetched c index rec 0
      | none => Cache.fetchMiss c index minTTL maxTTL producer now

/-- unref (cache.go lines 173 to 197): decrement the reference count of
the record (uint wrap-around at 0 made explicit); with references left,
store it back into the reachable map, otherwise move it to the unreachable
map stamped with the current time. -/
def Cache.unref (c : Cache α) (index : Nat) (now : Int) : Cache α :=
  match c.reachable.find? index with
  | none => c
  | some rec =>
      let refs1 : Nat := if rec.refs = 0 then 2 ^ 64 - 1 else rec.refs - 1
      if refs1 > 0 then
        { c with reachable := c.reachable.insert index { rec with refs := refs1 } }
      else
        { c with reachable := c.reachable.erase index,
                 unreachable := c.unreachable.insert index
                   { rec with refs := refs1, lastUnref := now } }

/-- One tick of the background sweep loop (cache.go lines 108 to 117):
delete every expired record from the unreachable map; the reachable map is
not touched. -/
def Cache.sweep (c : Cache α) (now : Int) : Cache α :=
  { c with unreachable := c.unreachable.filter (fun p => !(p.2.isExpired now)) }

/-- One step of the cache state machine: a Fetch (any index, TTL
arguments, producer and time), an Unreference Task (its timestamp comes
from time.Now().UnixNano() and is positive), or a sweep tick.  Close is
omitted: it only flips quitClosed and never touches the maps. -/
inductive Cache.Step (ε : Type) : Cache α → Cache α → Prop where
  | fetch (c : Cache α) (index : Nat) (minTTL maxTTL : Int)
      (producer : Except ε α) (now : Int) :
      Cache.Step ε c ((c.fetchCore index minTTL maxTTL producer now).cache)
  | unref (c : Cache α) (index : Nat) (now : Int) (hnow : 0 < now) :
      Cache.Step ε c (c.unref index now)
  | sweep (c : Cache α) (now : Int) :
      Cache.Step ε c (c.sweep now)

/-- The cache states reachable from the empty cache by any sequence of
Fetch, Unreference Task and sweep-tick operations. -/
inductive Cache.ReachableState : Cache α → Prop where
  | init : Cache.ReachableState Cache.new
  | next {ε : Type} {c c' : Cache α} :
      Cache.ReachableState c → Cache.Step ε c c' → Cache.ReachableState c'

/-- Well-formedness of a cache state: both maps have distinct keys, no
index is in both maps, every reachable record has at least one reference,
and every unreachable record has zero references and a set (positive)
last-unreferenced timestamp. -/
def Cache.WF (c : Cache α) : Prop :=
  c.reachable.NodupKeys ∧ c.unreachable.NodupKeys ∧
  (∀ p ∈ c.reachable, ∀ q ∈ c.unreachable, p.1 ≠ q.1) ∧
  (∀ p ∈ c.reachable, 1 ≤ p.2.refs) ∧
  (∀ p ∈ c.unreachable, p.2.refs = 0 ∧ 0 < p.2.lastUnref)

/-! Lemmas about the association-list record maps. -/

theorem RecordMap.mem_erase {m : RecordMap α} {p : Nat × Record α} {i : Nat} :
    p ∈ m.erase i ↔ p ∈ m ∧ p.1 ≠ i := by
  simp [RecordMap.erase, List.mem_filter, bne_iff_ne]

theorem RecordMap.mem_insert {m : RecordMap α} {p : Nat × Record α} {i : Nat}
    {r : Record α} :
    p ∈ m.insert i r ↔ p = (i, r) ∨ (p ∈ m ∧ p.1 ≠ i) := by
  simp [RecordMap.insert, RecordMap.mem_erase]

theorem RecordMap.erase_cons {q : Nat × Record α} {rest : List (Nat × Record α)}
    {i : Nat} :
    RecordMap.erase (q :: rest) i =
      if q.1 = i then RecordMap.erase rest i else q :: RecordMap.erase rest i := by
  by_cases hq : q.1 = i <;> simp [RecordMap.erase, List.filter_cons, hq]

theorem RecordMap.find?_mem {m : RecordMap α} {i : Nat} {r : Record α}
    (h : m.find? i = some r) : (i, r) ∈ m := by
  induction m with
  | nil => simp [RecordMap.find?] at h
  | cons q rest ih =>
    rw [RecordMap.find?] at h
    by_cases hq : q.1 = i
    · rw [if_pos hq] at h
      cases h
      subst hq
      exact List.mem_cons_self q rest
    · rw [if_neg hq] at h
      exact List.mem_cons_of_mem q (ih h)

theorem RecordMap.not_mem_of_find?_none {m : RecordMap α} {i : Nat}
    (h : m.find? i = none) (r : Record α) : (i, r) ∉ m := by
  induction m with
  | nil => simp
  | cons q rest ih =>
    rw [RecordMap.find?] at h
    by_cases hq : q.1 = i
    · rw [if_pos hq] at h
      cases h
    · rw [if_neg hq] at h
      intro hmem
      rcases List.mem_cons.mp hmem with heq | htail
      · exact hq (by rw [← heq])
      · exact ih h htail

theorem RecordMap.find?_eq_none_of_not_mem_keys {m : RecordMap α} {i : Nat}
    (h : i ∉ m.map Prod.fst) : m.find? i = none := by
  induction m with
  | nil => rfl
  | cons q rest ih =>
    rw [List.map_cons, List.mem_cons] at h
    push_neg at h
    rw [RecordMap.find?, if_neg (fun hq => h.1 hq.symm)]
    exact ih h.2

theorem RecordMap.mem_find? {m : RecordMap α} (hm : m.NodupKeys) {i : Nat}
    {r : Record α} (h : (i, r) ∈ m) : m.find? i = some r := by
  induction m with
  | nil => simp at h
  | cons q rest ih =>
    rw [RecordMap.NodupKeys, List.map_cons, List.nodup_cons] at hm
    rcases List.mem_cons.mp h with heq | htail
    · rw [RecordMap.find?, if_pos (by rw [← heq])]
      rw [← heq]
    · have hq : q.1 ≠ i := by
        intro hqi
        exact hm.1 (hqi ▸ List.mem_map_of_mem Prod.fst htail)
      rw [RecordMap.find?, if_neg hq]
      exact ih hm.2 htail

theorem RecordMap.find?_erase_self {m : RecordMap α} {i : Nat} :
    (m.erase i).find? i = none := by
  induction m with
  | nil => rfl
  | cons q rest ih =>
    rw [RecordMap.erase_cons]
    by_cases hq : q.1 = i
    · rw [if_pos hq]
      exact ih
    · rw [if_neg hq, RecordMap.find?, if_neg hq]
      exact ih

theorem RecordMap.find?_erase_ne {m : RecordMap α} {i j : Nat} (h : j ≠ i) :
    (m.erase i).find? j = m.find? j := by
  induction m with
  | nil => rfl
  | cons q rest ih =>
    rw [RecordMap.erase_cons]
    by_cases hq : q.1 = i
    · have hqj : ¬q.1 = j := fun hc => h (hc ▸ hq)
      rw [if_pos hq, RecordMap.find?, if_neg hqj]
      exact ih
    · rw [if_neg hq, RecordMap.find?, RecordMap.find?]
      by_cases hqj : q.1 = j
      · rw [if_pos hqj, if_pos hqj]
      · rw [if_neg hqj, if_neg hqj]
        exact ih

theorem RecordMap.find?_insert_self {m : RecordMap α} {i : Nat} {r : Record α} :
    (m.insert i r).find? i = some r := by
  rw [RecordMap.insert, RecordMap.find?, if_pos rfl]

theorem RecordMap.find?_insert_ne {m : RecordMap α} {i j : Nat} {r : Record α}
    (h : j ≠ i) : (m.insert i r).find? j = m.find? j := by
  rw [RecordMap.insert, RecordMap.find?, if_neg (fun hc => h hc.symm)]
  exact RecordMap.find?_erase_ne h

theorem RecordMap.nodupKeys_erase {m : RecordMap α} (h : m.NodupKeys) (i : Nat) :
    (m.erase i).NodupKeys := by
  unfold RecordMap.NodupKeys RecordMap.erase at *
  exact h.sublist ((List.filter_sublist m).map Prod.fst)

theorem RecordMap.not_mem_keys_erase {m : RecordMap α} {i : Nat} :
    i ∉ (m.erase i).map Prod.fst := by
  intro hmem
  rcases List.mem_map.mp hmem with ⟨p, hp, hfst⟩
  exact (RecordMap.mem_erase.mp hp).2 hfst

theorem RecordMap.nodupKeys_insert {m : RecordMap α} (h : m.NodupKeys) (i : Nat)
    (r : Record α) : (m.insert i r).NodupKeys := by
  unfold RecordMap.NodupKeys RecordMap.insert
  rw [List.map_cons, List.nodup_cons]
  exact ⟨RecordMap.not_mem_keys_erase, RecordMap.nodupKeys_erase h i⟩

theorem RecordMap.erase_of_find?_none {m : RecordMap α} {i : Nat}
    (h : m.find? i = none) : m.erase i = m := by
  induction m with
  | nil => rfl
  | cons q rest ih =>
    rw [RecordMap.find?] at h
    by_cases hq : q.1 = i
    · rw [if_pos hq] at h
      cases h
    · rw [if_neg hq] at h
      rw [RecordMap.erase_cons, if_neg hq, ih h]

theorem RecordMap.length_erase_add_one {m : RecordMap α} (hm : m.NodupKeys)
    {i : Nat} {r : Record α} (h : m.find? i = some r) :
    (m.erase i).length + 1 = m.length := by
  induction m with
  | nil => simp [RecordMap.find?] at h
  | cons q rest ih =>
    rw [RecordMap.NodupKeys, List.map_cons, List.nodup_cons] at hm
    rw [RecordMap.find?] at h
    rw [RecordMap.erase_cons]
    by_cases hq : q.1 = i
    · have hrest : RecordMap.find? rest i = none :=
        RecordMap.find?_eq_none_of_not_mem_keys (hq ▸ hm.1)
      rw [if_pos hq, RecordMap.erase_of_find?_none hrest, List.length_cons]
    · rw [if_neg hq] at h
      rw [if_neg hq, List.length_cons, List.length_cons]
      have := ih hm.2 h
      omega

/-! Preservation of well-formedness by every cache operation. -/

theorem wf_new : (Cache.new (α := α)).WF := by
  simp [Cache.new, Cache.WF, RecordMap.NodupKeys]

theorem wf_eraseReach {c : Cache α} (h : c.WF) (i : Nat) :
    ({ c with reachable := c.reachable.erase i } : Cache α).WF := by
  obtain ⟨h1, h2, h3, h4, h5⟩ := h
  exact ⟨RecordMap.nodupKeys_erase h1 i, h2,
    fun p hp q hq => h3 p (RecordMap.mem_erase.mp hp).1 q hq,
    fun p hp => h4 p (RecordMap.mem_erase.mp hp).1, h5⟩

theorem wf_eraseUnreach {c : Cache α} (h : c.WF) (i : Nat) :
    ({ c with unreachable := c.unreachable.erase i } : Cache α).WF := by
  obtain ⟨h1, h2, h3, h4, h5⟩ := h
  exact ⟨h1, RecordMap.nodupKeys_erase h2 i,
    fun p hp q hq => h3 p hp q (RecordMap.mem_erase.mp hq).1, h4,
    fun p hp => h5 p (RecordMap.mem_erase.mp hp).1⟩

theorem wf_insertReach {c : Cache α} (h : c.WF) {i : Nat} {r : Record α}
    (hrefs : 1 ≤ r.refs) (hnotU : ∀ q ∈ c.unreachable, i ≠ q.1) :
    ({ c with reachable := c.reachable.insert i r } : Cache α).WF := by
  obtain ⟨h1, h2, h3, h4, h5⟩ := h
  refine ⟨RecordMap.nodupKeys_insert h1 i r, h2, ?_, ?_, h5⟩
  · intro p hp q hq
    rcases RecordMap.mem_insert.mp hp with rfl | ⟨hpm, _⟩
    · exact hnotU q hq
    · exact h3 p hpm q hq
  · intro p hp
    rcases RecordMap.mem_insert.mp hp with rfl | ⟨hpm, _⟩
    · exact hrefs
    · exact h4 p hpm

theorem wf_storeFetched {c1 : Cache α} (h : c1.WF) {i : Nat} (rec : Record α)
    (hnotU : ∀ q ∈ c1.unreachable, i ≠ q.1) (calls : Nat) :
    ((Cache.storeFetched (ε := ε) c1 i rec calls).cache).WF := by
  unfold Cache.storeFetched
  exact wf_insertReach h (Nat.succ_le_succ (Nat.zero_le _)) hnotU

theorem wf_fetchMiss {c1 : Cache α} (h : c1.WF) {i : Nat}
    (hnotU : ∀ q ∈ c1.unreachable, i ≠ q.1) (mt Mt : Int) (p : Except ε α)
    (now : Int) : ((Cache.fetchMiss c1 i mt Mt p now).cache).WF := by
  unfold Cache.fetchMiss
  cases p with
  | error e => exact h
  | ok v => exact wf_storeFetched h _ hnotU 1

theorem notU_of_find?_none {c : Cache α} {i : Nat}
    (hu : c.unreachable.find? i = none) : ∀ q ∈ c.unreachable, i ≠ q.1 := by
  intro q hq hiq
  refine RecordMap.not_mem_of_find?_none hu q.2 ?_
  rw [hiq]
  exact hq

theorem wf_fetch {c : Cache α} (h : c.WF) (i : Nat) (mt Mt : Int)
    (p : Except ε α) (now : Int) : ((c.fetchCore i mt Mt p now).cache).WF := by
  unfold Cache.fetchCore
  cases hu : c.unreachable.find? i with
  | some rec =>
    dsimp only
    have hc1 : ({ c with unreachable := c.unreachable.erase i } : Cache α).WF :=
      wf_eraseUnreach h i
    have hnotU : ∀ q ∈ ({ c with unreachable := c.unreachable.erase i } :
        Cache α).unreachable, i ≠ q.1 := by
      intro q hq hiq
      exact (RecordMap.mem_erase.mp hq).2 hiq.symm
    by_cases hexp : rec.isExpired now = true
    · rw [if_pos hexp]
      exact wf_fetchMiss hc1 hnotU mt Mt p now
    · rw [if_neg hexp]
      exact wf_storeFetched hc1 rec hnotU 0
  | none =>
    dsimp only
    have hnotU : ∀ q ∈ c.unreachable, i ≠ q.1 := notU_of_find?_none hu
    cases hr : c.reachable.find? i with
    | some rec =>
      dsimp only
      by_cases hexp : rec.isExpired now = true
      · rw [if_pos hexp]
        exact wf_fetchMiss (wf_eraseReach h i) hnotU mt Mt p now
      · rw [if_neg hexp]
        exact wf_storeFetched h rec hnotU 0
    | none => exact wf_fetchMiss h hnotU mt Mt p now

theorem wf_unref {c : Cache α} (h : c.WF) (i : Nat) {now : Int}
    (hnow : 0 < now) : (c.unref i now).WF := by
  unfold Cache.unref
  cases hr : c.reachable.find? i with
  | none => exact h
  | some rec =>
    dsimp only
    have hmem : (i, rec) ∈ c.reachable := RecordMap.find?_mem hr
    have hnotU : ∀ q ∈ c.unreachable, i ≠ q.1 := fun q hq => h.2.2.1 (i, rec) hmem q hq
    by_cases hpos : (if rec.refs = 0 then 2 ^ 64 - 1 else rec.refs - 1) > 0
    · rw [if_pos hpos]
      exact wf_insertReach h hpos hnotU
    · rw [if_neg hpos]
      obtain ⟨h1, h2, h3, h4, h5⟩ := h
      have hzero : (if rec.refs = 0 then 2 ^ 64 - 1 else rec.refs - 1) = 0 :=
        Nat.eq_zero_of_not_pos hpos
      refine ⟨RecordMap.nodupKeys_erase h1 i, RecordMap.nodupKeys_insert h2 i _,
        ?_, fun p hp => h4 p (RecordMap.mem_erase.mp hp).1, ?_⟩
      · intro p hp q hq
        rcases RecordMap.mem_insert.mp hq with rfl | ⟨hqm, _⟩
        · exact fun hc => (RecordMap.mem_erase.mp hp).2 hc
        · exact h3 p (RecordMap.mem_erase.mp hp).1 q hqm
      · intro p hp
        rcases RecordMap.mem_insert.mp hp with rfl | ⟨hpm, _⟩
        · exact ⟨hzero, hnow⟩
        · exact h5 p hpm

theorem wf_sweep {c : Cache α} (h : c.WF) (now : Int) : (c.sweep now).WF := by
  obtain ⟨h1, h2, h3, h4, h5⟩ := h
  refine ⟨h1, h2.sublist ((List.filter_sublist _).map Prod.fst), ?_, h4, ?_⟩
  · intro p hp q hq
    exact h3 p hp q (List.mem_of_mem_filter hq)
  · intro p hp
    exact h5 p (List.mem_of_mem_filter hp)

theorem wf_step {ε : Type} {c c' : Cache α} (h : c.WF)
    (hs : Cache.Step ε c c') : c'.WF := by
  cases hs with
  | fetch i mt Mt p now => exact wf_fetch h i mt Mt p now
  | unref i now hnow => exact wf_unref h i hnow
  | sweep now => exact wf_sweep h now

theorem reachableState_wf {c : Cache α} (h : c.ReachableState) : c.WF := by
  induction h with
  | init => exact wf_new
  | next _ hs ih => exact wf_step ih hs

/-! Concrete states used to exercise the operations.  All use value type
Nat and error type Nat; index 0 stands for the hash of some fixed key. -/

/-- State after one Fetch on the empty cache with minTTL 0, maxTTL 10 at
time 1: the reachable map holds one record with refs 1 and expires 11. -/
def exCacheOne : Cache Nat :=
  (Cache.new.fetchCore 0 0 10 (Except.ok 5 : Except Nat Nat) 1).cache

/-- exCacheOne after the only handle was collected at time 2: the record
moved to the unreachable map with refs 0 and lastUnref 2. -/
def exUnref : Cache Nat := exCacheOne.unref 0 2

/-- A record is fetched with minTTL 10 at time 1, unreferenced at time 2
and fetched again at time 3, inside its grace window. -/
def graceCache : Cache Nat :=
  (((Cache.new.fetchCore 0 10 0 (Except.ok 5 : Except Nat Nat) 1).cache.unref
      0 2).fetchCore 0 10 0 (Except.ok 5 : Except Nat Nat) 3).cache

/-! The claims. -/

/-- Claim C7: for every record r and time now, isExpired r now is true iff
(lastUnref is set, i.e. positive, and lastUnref + minTTL < now) or
(expires is set and expires < now); both comparisons are strict, and a
record with both fields unset never expires. -/
theorem isExpired_spec (r : Record α) (now : Int) :
    (r.isExpired now = true ↔
      (0 < r.lastUnref ∧ r.lastUnref + r.minTTL < now) ∨
      (0 < r.expires ∧ r.expires < now)) ∧
    (r.lastUnref = 0 → r.expires = 0 → r.isExpired now = false) := by
  constructor
  · unfold Record.isExpired
    split_ifs with h1 h2 <;> simp_all
  · intro h1 h2
    simp [Record.isExpired, h1, h2]

/-- Claim C9: a sweep tick at time now deletes from the unreachable map
exactly the records that are expired at now, keeps every non-expired
unreachable record, and leaves the reachable map (and the quit flag)
completely unchanged. -/
theorem sweep_spec (c : Cache α) (now : Int) :
    (c.sweep now).reachable = c.reachable ∧
    (c.sweep now).quitClosed = c.quitClosed ∧
    (∀ p : Nat × Record α,
      p ∈ (c.sweep now).unreachable ↔
        p ∈ c.unreachable ∧ p.2.isExpired now = false) := by
  refine ⟨rfl, rfl, fun p => ?_⟩
  simp [Cache.sweep, List.mem_filter]

/-- Claim C8: a Fetch on the empty cache invokes the producer exactly
once and returns a record holding its value, with the given minTTL,
expiry now + maxTTL when maxTTL > 0 and unset otherwise, refs 1 and no
lastUnref; afterwards Len is 1. -/
theorem fetch_empty_cache (i : Nat) (mt Mt : Int) (v : α) (now : Int) :
    ((Cache.new.fetchCore i mt Mt (Except.ok v : Except ε α) now).producerCalls = 1) ∧
    ((Cache.new.fetchCore i mt Mt (Except.ok v : Except ε α) now).result =
      Except.ok
        { value := v, minTTL := mt,
          expires := if Mt > 0 then now + Mt else 0, refs := 1, lastUnref := 0 }) ∧
    ((Cache.new.fetchCore i mt Mt (Except.ok v : Except ε α) now).cache.reachable.find? i =
      some
        { value := v, minTTL := mt,
          expires := if Mt > 0 then now + Mt else 0, refs := 1, lastUnref := 0 }) ∧
    ((Cache.new.fetchCore i mt Mt (Except.ok v : Except ε α) now).cache.len = 1) := by
  refine ⟨rfl, rfl, ?_, rfl⟩
  exact RecordMap.find?_insert_self

/-- Claim C3: the spec demands that a second Close does not panic, but
Close is an unguarded close(c.quit) and closing an already closed Go
channel panics (modelled as none).  The first Close succeeds and changes
nothing but the quit flag; the second Close panics. -/
theorem close_twice_panics :
    (Cache.new (α := Nat)).close =
      some { reachable := [], unreachable := [], quitClosed := true } ∧
    Option.bind (Cache.new (α := Nat)).close Cache.close = none := by
  exact ⟨rfl, rfl⟩

/-- Claim C5: in every state reachable by any sequence of Fetch, unref
and sweep-tick operations, no index is simultaneously a key of both the
reachable map and the unreachable map. -/
theorem maps_disjoint {c : Cache α} (hc : c.ReachableState) (i : Nat) :
    c.reachable.find? i = none ∨ c.unreachable.find? i = none := by
  have h := reachableState_wf hc
  cases hr : c.reachable.find? i with
  | none => exact Or.inl rfl
  | some r =>
    cases hu : c.unreachable.find? i with
    | none => exact Or.inr rfl
    | some s =>
      exact absurd rfl
        (h.2.2.1 (i, r) (RecordMap.find?_mem hr) (i, s) (RecordMap.find?_mem hu))

theorem maps_disjoint_witness :
    exUnref.reachable.find? 0 = none ∨ exUnref.unreachable.find? 0 = none :=
  maps_disjoint
    (Cache.ReachableState.next
      (Cache.ReachableState.next Cache.ReachableState.init
        (Cache.Step.fetch Cache.new 0 0 10 (Except.ok 5 : Except Nat Nat) 1))
      (Cache.Step.unref (ε := Nat) exCacheOne 0 2 (by decide))) 0

/-- Claim C6: in every state reachable by any sequence of Fetch, unref
and sweep-tick operations, every record in the reachable map has refs at
least 1, and every record in the unreachable map has refs 0 and a set
(positive) lastUnref. -/
theorem refcount_invariant {c : Cache α} (hc : c.ReachableState) :
    (∀ p ∈ c.reachable, 1 ≤ p.2.refs) ∧
    (∀ p ∈ c.unreachable, p.2.refs = 0 ∧ 0 < p.2.lastUnref) :=
  ⟨(reachableState_wf hc).2.2.2.1, (reachableState_wf hc).2.2.2.2⟩

theorem refcount_invariant_witness :
    (∀ p ∈ exUnref.reachable, 1 ≤ p.2.refs) ∧
    (∀ p ∈ exUnref.unreachable, p.2.refs = 0 ∧ 0 < p.2.lastUnref) :=
  refcount_invariant
    (Cache.ReachableState.next
      (Cache.ReachableState.next Cache.ReachableState.init
        (Cache.Step.fetch Cache.new 0 0 10 (Except.ok 5 : Except Nat Nat) 1))
      (Cache.Step.unref (ε := Nat) exCacheOne 0 2 (by decide)))

/-- Claim C1 as stated is refuted by the code: a handle for the record at
index 0 is still reachable (the record sits in the reachable map with
refs 1), yet a second Fetch at time 20, past the absolute expiry 11,
invokes its producer and returns the new value 7 instead of the first
value 5. -/
theorem fetch_hit_claim_counterexample :
    exCacheOne.reachable.find? 0 =
      some { value := 5, minTTL := 0, expires := 11, refs := 1, lastUnref := 0 } ∧
    (exCacheOne.fetchCore 0 0 0 (Except.ok 7 : Except Nat Nat) 20).producerCalls = 1 ∧
    (exCacheOne.fetchCore 0 0 0 (Except.ok 7 : Except Nat Nat) 20).result =
      Except.ok { value := 7, minTTL := 0, expires := 0, refs := 1, lastUnref := 0 } := by
  decide

/-- Claim C1 amended: while a handle for index i is still reachable (its
record sits in the reachable map of a reachable state, hence refs at
least 1) and that record is not expired at the time of the second Fetch,
the second Fetch does not invoke its producer and returns the record with
the same value (only refs is incremented). -/
theorem fetch_hit_avoids_producer {c : Cache α} (hc : c.ReachableState)
    {i : Nat} {r : Record α} (hr : c.reachable.find? i = some r)
    {now : Int} (hexp : r.isExpired now = false) (mt Mt : Int)
    (p : Except ε α) :
    (c.fetchCore i mt Mt p now).producerCalls = 0 ∧
    (c.fetchCore i mt Mt p now).result = Except.ok { r with refs := r.refs + 1 } ∧
    (c.fetchCore i mt Mt p now).cache.reachable.find? i =
      some { r with refs := r.refs + 1 } := by
  have hwf := reachableState_wf hc
  have hu : c.unreachable.find? i = none := by
    cases hu : c.unreachable.find? i with
    | none => rfl
    | some s =>
      exact absurd rfl
        (hwf.2.2.1 (i, r) (RecordMap.find?_mem hr) (i, s) (RecordMap.find?_mem hu))
  unfold Cache.fetchCore
  rw [hu, hr]
  dsimp only
  rw [if_neg (by rw [hexp]; exact Bool.false_ne_true)]
  exact ⟨rfl, rfl, RecordMap.find?_insert_self⟩

theorem fetch_hit_avoids_producer_witness :
    (exCacheOne.fetchCore 0 7 7 (Except.ok 9 : Except Nat Nat) 5).producerCalls = 0 ∧
    (exCacheOne.fetchCore 0 7 7 (Except.ok 9 : Except Nat Nat) 5).result =
      Except.ok { value := 5, minTTL := 0, expires := 11, refs := 2, lastUnref := 0 } ∧
    (exCacheOne.fetchCore 0 7 7 (Except.ok 9 : Except Nat Nat) 5).cache.reachable.find? 0 =
      some { value := 5, minTTL := 0, expires := 11, refs := 2, lastUnref := 0 } :=
  fetch_hit_avoids_producer
    (r := { value := 5, minTTL := 0, expires := 11, refs := 1, lastUnref := 0 })
    (Cache.ReachableState.next Cache.ReachableState.init
      (Cache.Step.fetch Cache.new 0 0 10 (Except.ok 5 : Except Nat Nat) 1))
    (by decide) (by decide) 7 7 (Except.ok 9)

/-- Claim C10: a Fetch that hits a non-expired record (found in either
map) ignores its minTTL and maxTTL arguments: the producer is not
invoked, and the record stored back into the reachable map is the found
record with only refs incremented by 1 (value, minTTL, expires and
lastUnref unchanged); the conclusion does not depend on mt, Mt or p. -/
theorem fetch_hit_ignores_ttl_args {c : Cache α} {i : Nat} {r : Record α}
    {now : Int}
    (hfound : c.unreachable.find? i = some r ∨
      (c.unreachable.find? i = none ∧ c.reachable.find? i = some r))
    (hexp : r.isExpired now = false) (mt Mt : Int) (p : Except ε α) :
    (c.fetchCore i mt Mt p now).producerCalls = 0 ∧
    (c.fetchCore i mt Mt p now).result = Except.ok { r with refs := r.refs + 1 } ∧
    (c.fetchCore i mt Mt p now).cache.reachable =
      c.reachable.insert i { r with refs := r.refs + 1 } := by
  unfold Cache.fetchCore
  rcases hfound with hu | ⟨hu, hr⟩
  · rw [hu]
    dsimp only
    rw [if_neg (by rw [hexp]; exact Bool.false_ne_true)]
    exact ⟨rfl, rfl, rfl⟩
  · rw [hu, hr]
    dsimp only
    rw [if_neg (by rw [hexp]; exact Bool.false_ne_true)]
    exact ⟨rfl, rfl, rfl⟩

theorem fetch_hit_ignores_ttl_args_witness :
    (exUnref.fetchCore 0 7 7 (Except.ok 9 : Except Nat Nat) 2).producerCalls = 0 ∧
    (exUnref.fetchCore 0 7 7 (Except.ok 9 : Except Nat Nat) 2).result =
      Except.ok { value := 5, minTTL := 0, expires := 11, refs := 1, lastUnref := 2 } ∧
    (exUnref.fetchCore 0 7 7 (Except.ok 9 : Except Nat Nat) 2).cache.reachable =
      exUnref.reachable.insert 0
        { value := 5, minTTL := 0, expires := 11, refs := 1, lastUnref := 2 } :=
  fetch_hit_ignores_ttl_args
    (r := { value := 5, minTTL := 0, expires := 11, refs := 0, lastUnref := 2 })
    (Or.inl (by decide)) (by decide) 7 7 (Except.ok 9)

/-- Claim C4 as stated is refuted by the code: exUnref holds one (expired)
unreachable record, so Len is 1; a Fetch at time 4 whose producer fails
with error 42 returns that error, but the expired record was already
deleted inside the get step, so Len drops to 0 instead of staying 1. -/
theorem fetch_error_claim_counterexample :
    exUnref.len = 1 ∧
    (exUnref.fetchCore 0 0 0 (Except.error 42 : Except Nat Nat) 4).producerCalls = 1 ∧
    (exUnref.fetchCore 0 0 0 (Except.error 42 : Except Nat Nat) 4).result =
      Except.error 42 ∧
    (exUnref.fetchCore 0 0 0 (Except.error 42 : Except Nat Nat) 4).cache.len = 0 := by
  decide

/-- Claim C4 amended: when a Fetch invokes a producer that fails, the
error is returned verbatim, no record is created and no refs change (both
maps afterwards are erasures of the old maps at the fetched index); the
state is completely unchanged when the index held no record, and Len
decreases by exactly 1 when the index held an (necessarily expired)
record, which the get step discarded before the producer ran. -/
theorem fetch_error_no_mutation {c : Cache α} (hc : c.ReachableState)
    (i : Nat) (mt Mt : Int) (e : ε) (now : Int)
    (hmiss : (c.fetchCore i mt Mt (Except.error e : Except ε α) now).producerCalls ≠ 0) :
    (c.fetchCore i mt Mt (Except.error e : Except ε α) now).result = Except.error e ∧
    (c.fetchCore i mt Mt (Except.error e : Except ε α) now).cache.reachable =
      c.reachable.erase i ∧
    (c.fetchCore i mt Mt (Except.error e : Except ε α) now).cache.unreachable =
      c.unreachable.erase i ∧
    (c.reachable.find? i = none → c.unreachable.find? i = none →
      (c.fetchCore i mt Mt (Except.error e : Except ε α) now).cache = c) ∧
    ((c.reachable.find? i = none ∧ c.unreachable.find? i = none ∧
        (c.fetchCore i mt Mt (Except.error e : Except ε α) now).cache.len = c.len) ∨
      ((c.fetchCore i mt Mt (Except.error e : Except ε α) now).cache.len + 1 = c.len ∧
        ∃ r, (c.unreachable.find? i = some r ∨ c.reachable.find? i = some r) ∧
          r.isExpired now = true)) := by
  obtain ⟨h1, h2, h3, h4, h5⟩ := reachableState_wf hc
  unfold Cache.fetchCore at hmiss ⊢
  cases hu : c.unreachable.find? i with
  | some rec =>
    rw [hu] at hmiss
    dsimp only at hmiss ⊢
    by_cases hexp : rec.isExpired now = true
    · rw [if_pos hexp] at hmiss ⊢
      unfold Cache.fetchMiss
      dsimp only
      have hrnone : c.reachable.find? i = none := by
        cases hrr : c.reachable.find? i with
        | none => rfl
        | some s =>
          exact absurd rfl
            (h3 (i, s) (RecordMap.find?_mem hrr) (i, rec) (RecordMap.find?_mem hu))
      refine ⟨rfl, (RecordMap.erase_of_find?_none hrnone).symm, rfl, ?_, ?_⟩
      · intro _ hcu
        exact Option.noConfusion hcu
      · right
        refine ⟨?_, rec, Or.inl rfl, hexp⟩
        have hlen := RecordMap.length_erase_add_one h2 hu
        unfold Cache.len
        dsimp only
        omega
    · rw [if_neg hexp] at hmiss
      exact absurd rfl hmiss
  | none =>
    rw [hu] at hmiss
    dsimp only at hmiss ⊢
    cases hr : c.reachable.find? i with
    | some rec =>
      rw [hr] at hmiss
      dsimp only at hmiss ⊢
      by_cases hexp : rec.isExpired now = true
      · rw [if_pos hexp] at hmiss ⊢
        unfold Cache.fetchMiss
        dsimp only
        refine ⟨rfl, rfl, (RecordMap.erase_of_find?_none hu).symm, ?_, ?_⟩
        · intro hcr _
          exact Option.noConfusion hcr
        · right
          refine ⟨?_, rec, Or.inr rfl, hexp⟩
          have hlen := RecordMap.length_erase_add_one h1 hr
          unfold Cache.len
          dsimp only
          omega
      · rw [if_neg hexp] at hmiss
        exact absurd rfl hmiss
    | none =>
      rw [hr] at hmiss
      dsimp only at hmiss ⊢
      unfold Cache.fetchMiss
      dsimp only
      exact ⟨rfl, (RecordMap.erase_of_find?_none hr).symm,
        (RecordMap.erase_of_find?_none hu).symm, fun _ _ => rfl,
        Or.inl ⟨rfl, rfl, rfl⟩⟩

theorem fetch_error_no_mutation_witness :
    (exUnref.fetchCore 0 0 0 (Except.error 42 : Except Nat Nat) 4).result =
      Except.error 42 ∧
    (exUnref.fetchCore 0 0 0 (Except.error 42 : Except Nat Nat) 4).cache.reachable =
      exUnref.reachable.erase 0 ∧
    (exUnref.fetchCore 0 0 0 (Except.error 42 : Except Nat Nat) 4).cache.unreachable =
      exUnref.unreachable.erase 0 ∧
    (exUnref.reachable.find? 0 = none → exUnref.unreachable.find? 0 = none →
      (exUnref.fetchCore 0 0 0 (Except.error 42 : Except Nat Nat) 4).cache = exUnref) ∧
    ((exUnref.reachable.find? 0 = none ∧ exUnref.unreachable.find? 0 = none ∧
        (exUnref.fetchCore 0 0 0 (Except.error 42 : Except Nat Nat) 4).cache.len =
          exUnref.len) ∨
      ((exUnref.fetchCore 0 0 0 (Except.error 42 : Except Nat Nat) 4).cache.len + 1 =
          exUnref.len ∧
        ∃ r, (exUnref.unreachable.find? 0 = some r ∨
            exUnref.reachable.find? 0 = some r) ∧ r.isExpired 4 = true)) :=
  fetch_error_no_mutation
    (Cache.ReachableState.next
      (Cache.ReachableState.next Cache.ReachableState.init
        (Cache.Step.fetch Cache.new 0 0 10 (Except.ok 5 : Except Nat Nat) 1))
      (Cache.Step.unref (ε := Nat) exCacheOne 0 2 (by decide)))
    0 0 0 42 4 (by decide)

/-- Claim C2 is violated by the code: fetch does not clear lastUnref when
it reactivates a record from the unreachable map.  graceCache is a state
reachable by Fetch at time 1, unref at time 2 and a reactivating Fetch at
time 3 (inside the grace window), and its reachable map holds a record
with refs 1 whose lastUnref is still 2, not unset.  Consequently the
grace-period clause of isExpired can fire on a reachable record: a Fetch
at time 20 finds lastUnref + minTTL = 12 < 20, discards the record even
though it has a live reference, and invokes its producer. -/
theorem reactivated_record_keeps_lastUnref :
    Cache.ReachableState graceCache ∧
    graceCache.reachable.find? 0 =
      some { value := 5, minTTL := 10, expires := 0, refs := 1, lastUnref := 2 } ∧
    (graceCache.fetchCore 0 10 0 (Except.ok 5 : Except Nat Nat) 20).producerCalls = 1 :=
  ⟨Cache.ReachableState.next
      (Cache.ReachableState.next
        (Cache.ReachableState.next Cache.ReachableState.init
          (Cache.Step.fetch Cache.new 0 10 0 (Except.ok 5 : Except Nat Nat) 1))
        (Cache.Step.unref (ε := Nat)
          (Cache.new.fetchCore 0 10 0 (Except.ok 5 : Except Nat Nat) 1).cache 0 2
          (by decide)))
      (Cache.Step.fetch
        ((Cache.new.fetchCore 0 10 0 (Except.ok 5 : Except Nat Nat) 1).cache.unref 0 2)
        0 10 0 (Except.ok 5 : Except Nat Nat) 3),
    by decide, by decide⟩

end Weakcache
